import Mathlib

set_option maxRecDepth 4000

/-
Verification development for the VirtualTree repository
(src/virtualtreemodel/virtualtreemodel.cpp).

The shallow embedding below translates the internal tree cache
(InternalNode), the diff/sync engine (VirtualTreeModel::syncNodeList),
the lazy loading and presence-probe logic, item resolution
(VirtualTreeModel::getItemNode) and the update batching counter
(beginUpdate/endUpdate) into executable Lean definitions.
External identity handles (void pointers in the source) are modelled as
Nat; the null pointer (the root's item and the root collection key) is
modelled as the value none of Option Nat.
-/

namespace VTree

/-- Cached mirror node of one external item (class InternalNode in the
source).  Field order: item, parentIndex, hasChildrenQueryed, hasChildren,
childInitialized, children.  The non-owning parent back-pointer of the
source is omitted: ownership is strictly top-down and no claim reads it. -/
inductive Node : Type where
  | mk (item : Option Nat) (parentIndex : Nat) (hasChildrenQueryed : Bool)
      (hasChildren : Bool) (childInitialized : Bool) (children : List Node)

def Node.item : Node → Option Nat
  | .mk i _ _ _ _ _ => i

def Node.parentIndex : Node → Nat
  | .mk _ p _ _ _ _ => p

def Node.hasChildrenQueryed : Node → Bool
  | .mk _ _ q _ _ _ => q

def Node.hasChildren : Node → Bool
  | .mk _ _ _ h _ _ => h

def Node.childInitialized : Node → Bool
  | .mk _ _ _ _ c _ => c

def Node.children : Node → List Node
  | .mk _ _ _ _ _ cs => cs

/-- Overwrite the parentIndex slot (used when renumbering siblings). -/
def Node.setParentIndex : Node → Nat → Node
  | .mk i _ q h c cs, p => .mk i p q h c cs

/-- Replace the children and mark the node initialized (the final state
of a node after syncNodeList, and of loadChildren). -/
def Node.setChildrenInit : Node → List Node → Node
  | .mk i p q h _ _, cs => .mk i p q h true cs

/-- Record the result of a cheap presence probe:
hasChildrenQueryed := true, hasChildren := the probe result. -/
def Node.markQueryed : Node → Bool → Node
  | .mk i p _ _ c cs, b => .mk i p true b c cs

/-- Set childInitialized := true, everything else unchanged. -/
def Node.forceInit : Node → Node
  | .mk i p q h _ cs => .mk i p q h true cs

def defaultNode : Node := .mk none 0 false false false []

/-- Modelled from the spec: the external source capability set of spec
section 6.  The class VirtualModelAdapter is declared in a header that is
not under src/, so its contract is taken from the spec table: a live
children list per item (none keys the top-level collection, matching the
null parent pointer the source passes for the root), and parentOf for
ancestor lookup.  hasItems, itemCount, itemAt and indexOf are derived
from the live lists below. -/
structure Adapter where
  live : Option Nat → List Nat
  parentOf : Nat → Option Nat

/-- Modelled from the spec: cheap presence probe, no materialization. -/
def Adapter.hasItems (a : Adapter) (it : Option Nat) : Bool :=
  decide (0 < (a.live it).length)

/-- Modelled from the spec: live child count. -/
def Adapter.getItemsCount (a : Adapter) (it : Option Nat) : Nat :=
  (a.live it).length

/-- Modelled from the spec: live child identity at position k. -/
def Adapter.getItem (a : Adapter) (it : Option Nat) (k : Nat) : Nat :=
  (a.live it).getD k 0

/-- Modelled from the spec: indexOf(parent, item, from) is the first live
position at or after the floor whose identity matches, or not-found. -/
def indexOfFrom (l : List Nat) (item : Option Nat) (start : Nat) : Option Nat :=
  ((l.drop start).findIdx? (fun x => some x == item)).map (fun j => j + start)

/-- InternalNode::isInitialized.  Returns the decision together with the
(possibly updated) node: when the node is uninitialized but its presence
was probed and the cached probe no longer matches the live truth, the
node is forcibly marked initialized so the diff engine reconciles it. -/
def isInitialized (a : Adapter) (n : Node) : Bool × Node :=
  if n.childInitialized then (true, n)
  else if n.hasChildrenQueryed then
    if n.hasChildren != decide (0 < a.getItemsCount n.item) then
      (true, n.forceInit)
    else (false, n)
  else (false, n)

/-- Fresh node as created by new InternalNode(parent, obj, k). -/
def freshNode (obj : Nat) (k : Nat) : Node := .mk (some obj) k false false false []

/-- InternalNode::loadChildren: populate children from the source in
creation order, then mark initialized; no-op when already initialized. -/
def loadChildren (a : Adapter) (n : Node) : Node :=
  if n.childInitialized then n
  else if a.hasItems n.item then
    n.setChildrenInit
      ((List.range (a.getItemsCount n.item)).map (fun k => freshNode (a.getItem n.item k) k))
  else n.forceInit

/-- Assign parentIndex k, k+1, ... along a list of siblings. -/
def renumFrom : Nat → List Node → List Node
  | _, [] => []
  | k, n :: rest => n.setParentIndex k :: renumFrom (k + 1) rest

/-- InternalNode::eraseChildren: erase children[b..e) and renumber the
kept tail starting from the parentIndex of the first erased child. -/
def eraseChildren (children : List Node) (b e : Nat) : List Node :=
  children.take b ++ renumFrom (children.getD b defaultNode).parentIndex (children.drop e)

/-- InternalNode::insertedChildren(lastIndex): set
children[i].parentIndex = i for every i at or after lastIndex. -/
def insertedChildren (children : List Node) (lastIndex : Nat) : List Node :=
  children.take lastIndex ++ renumFrom lastIndex (children.drop lastIndex)

/-- Splice freshly created nodes in at position pos; renumFrom assigns
parentIndex pos, pos+1, ..., matching new InternalNode(&node, obj, cur)
at cur = srcCur, srcCur+1, ... in the source's insertion loop. -/
def insertFresh (nodes : List Node) (pos : Nat) (items : List Nat) : List Node :=
  nodes.take pos ++ renumFrom pos (items.map (fun it => freshNode it 0)) ++ nodes.drop pos

/-- Structural change notifications emitted by the diff pass
(beginRemoveRows / beginInsertRows row ranges). -/
inductive Evt : Type where
  | rem (first last : Nat)
  | ins (first last : Nat)
deriving DecidableEq, Repr

/-- Failure modes of the embedded loop.  oobInsert marks the state in
which the source would call vector::emplace past the end of the child
vector (undefined behavior in C++); outOfFuel marks exhaustion of the
step budget of the embedding. -/
inductive Fault : Type where
  | oobInsert
  | outOfFuel
deriving DecidableEq, Repr

/-- The local variables of VirtualTreeModel::syncNodeList's scan loop,
plus the events emitted so far. -/
structure LoopSt : Type where
  nodes : List Node
  srcStart : Nat
  srcCur : Nat
  destStart : Nat
  evts : List Evt

/-- The removal block of syncNodeList (lines guarded by
srcCur > srcStart): emit the remove range, erase it, and when not on the
flush step rewind srcCur to srcStart. -/
def eraseStage (finishing : Bool) (st : LoopSt) : LoopSt :=
  if st.srcStart < st.srcCur then
    { nodes := eraseChildren st.nodes st.srcStart st.srcCur
      srcStart := st.srcStart
      srcCur := if finishing then st.srcCur else st.srcStart
      destStart := st.destStart
      evts := st.evts ++ [.rem st.srcStart (st.srcCur - 1)] }
  else st

/-- The insertion block of syncNodeList (guarded by destCur > destStart):
create one node per skipped live item at positions srcCur, srcCur+1, ...,
renumber the tail, and advance srcCur and destStart past the new block.
Faults when the source would insert past the end of the vector. -/
def insStep (a : Adapter) (parent : Option Nat) (st : LoopSt) (destCur : Nat) :
    Except Fault LoopSt :=
  if st.destStart < destCur then
    if st.srcCur ≤ st.nodes.length then
      let k := destCur - st.destStart
      let items := (List.range k).map (fun i => a.getItem parent (st.destStart + i))
      .ok { nodes := insertedChildren (insertFresh st.nodes st.srcCur items) (st.srcCur + k)
            srcStart := st.srcStart
            srcCur := st.srcCur + k
            destStart := st.destStart + k
            evts := st.evts ++ [.ins st.srcCur (st.srcCur + k - 1)] }
    else .error .oobInsert
  else .ok st

/-- The body of syncNodeList executed once a match is in hand (the
destCur >= 0 branch): removal block, srcStart = srcCur + 1, the flush
override of destCur, insertion block, then destStart = destCur + 1.
Note that srcStart is fixed before the insertion block advances srcCur,
exactly as in the source. -/
def matchStep (a : Adapter) (parent : Option Nat) (finishing : Bool) (st : LoopSt)
    (destCur0 : Nat) : Except Fault LoopSt :=
  let s1 := eraseStage finishing st
  let s2 : LoopSt := { s1 with srcStart := s1.srcCur + 1 }
  let destCur := if finishing then a.getItemsCount parent else destCur0
  Except.map (fun s3 => { s3 with destStart := destCur + 1 }) (insStep a parent s2 destCur)

/-- Advance the scan cursor (the srcCur++ closing every iteration). -/
def bumpCur (st : LoopSt) : LoopSt := { st with srcCur := st.srcCur + 1 }

/-- The while loop of VirtualTreeModel::syncNodeList, fuel-indexed.
Each iteration: when srcCur is in range, search the live order for the
current entry's identity at or after destStart; on not-found just
advance; on a find run matchStep and then, when the matched node reports
isInitialized (which may itself force-initialize it), recurse into its
subtree and reset srcStart past the current position.  The one-past-end
step always takes the match branch with destCur overridden to the live
count (in the source destCur is initialized to 0, so destCur >= 0
holds on the flush step). -/
def syncGo (a : Adapter) : Nat → Option Nat → LoopSt → Except Fault LoopSt
  | 0, _, _ => .error .outOfFuel
  | Nat.succ fuel, parent, st =>
    if st.srcCur ≤ st.nodes.length then
      if st.srcCur < st.nodes.length then
        match indexOfFrom (a.live parent) (st.nodes.getD st.srcCur defaultNode).item
            st.destStart with
        | none => syncGo a fuel parent (bumpCur st)
        | some destCur =>
          match matchStep a parent false st destCur with
          | .error f => .error f
          | .ok s4 =>
            let pr := isInitialized a (s4.nodes.getD s4.srcCur defaultNode)
            let s5 : LoopSt := { s4 with nodes := s4.nodes.set s4.srcCur pr.2 }
            if pr.1 then
              match syncGo a fuel pr.2.item
                  { nodes := pr.2.children, srcStart := 0, srcCur := 0,
                    destStart := 0, evts := [] } with
              | .error f => .error f
              | .ok cst =>
                let nc := pr.2.setChildrenInit cst.nodes
                syncGo a fuel parent
                  (bumpCur { s5 with nodes := s5.nodes.set s5.srcCur nc,
                                     evts := s5.evts ++ cst.evts,
                                     srcStart := s5.srcCur + 1 })
            else
              syncGo a fuel parent (bumpCur s5)
      else
        match matchStep a parent true st 0 with
        | .error f => .error f
        | .ok s4 => syncGo a fuel parent (bumpCur s4)
    else .ok st

/-- VirtualTreeModel::syncNodeList(node, parent): run the scan loop over
node's children and finally set node.childInitialized = true.  Returns
the updated node together with the emitted structural events. -/
def syncNodeList (a : Adapter) (fuel : Nat) (parent : Option Nat) (node : Node) :
    Except Fault (Node × List Evt) :=
  match syncGo a fuel parent
      { nodes := node.children, srcStart := 0, srcCur := 0, destStart := 0, evts := [] } with
  | .error f => .error f
  | .ok st => .ok (node.setChildrenInit st.nodes, st.evts)

/-- VirtualTreeModel::hasChildren.  isRoot models an invalid parent
QModelIndex (the source returns true for it before looking at any node).
For a non-root node: children non-empty when initialized, otherwise the
cheap probe is performed and recorded on the node. -/
def hasChildrenQuery (a : Adapter) (isRoot : Bool) (n : Node) : Bool × Node :=
  if isRoot then (true, n)
  else if n.childInitialized then (decide (0 < n.children.length), n)
  else
    let has := a.hasItems n.item
    (has, n.markQueryed has)

/-- Result of a payload read (VirtualTreeModel::data).  The adapter
consultation is kept symbolic: adapterData marks that the adapter was
asked for the given item and role, empty is the default QVariant. -/
inductive DataRes : Type where
  | empty
  | adapterData (item : Option Nat) (role : Nat)
deriving DecidableEq, Repr

/-- VirtualTreeModel::data: invalid index yields the empty value; while
an update transaction is open (m_updating > 0) the empty value is
returned without consulting the adapter; otherwise the adapter is
consulted for the node's item. -/
def dataQuery (updating : Int) (valid : Bool) (item : Option Nat) (role : Nat) : DataRes :=
  if valid = false then .empty
  else if updating > 0 then .empty
  else .adapterData item role

/-- Outcome of VirtualTreeModel::getItemNode.  found/notFound mirror a
non-null/null InternalNode pointer; nullDeref marks the execution that
calls loadChildren through a null parent pointer; oob marks the
execution that indexes parentNode->children out of range; outOfFuel
marks exhaustion of the recursion budget of the embedding. -/
inductive Resolution : Type where
  | found (n : Node)
  | notFound
  | nullDeref
  | oob
  | outOfFuel

/-- VirtualTreeModel::getItemNode: walk the ancestor chain upward.  An
item that is its own parent resolves to null; an item with no parent
resolves to the root node; otherwise the parent is resolved recursively,
the item's live position under its parent is looked up, and on success
the parent node's children are loaded and indexed at that position.
The source dereferences parentNode and indexes its child vector without
any null or range check, which the embedding surfaces as nullDeref and
oob. -/
def getItemNode (a : Adapter) (root : Node) : Nat → Nat → Resolution
  | 0, _ => .outOfFuel
  | Nat.succ fuel, item =>
    match a.parentOf item with
    | none => .found root
    | some p =>
      if p = item then .notFound
      else
        let r := getItemNode a root fuel p
        match indexOfFrom (a.live (some p)) (some item) 0 with
        | some idx =>
          match r with
          | .found pnode =>
            let loaded := loadChildren a pnode
            if idx < loaded.children.length then .found (loaded.children.getD idx defaultNode)
            else .oob
          | .notFound => .nullDeref
          | other => other
        | none =>
          match r with
          | .notFound => .notFound
          | .found _ => .notFound
          | other => other

/-- Discriminator: did resolution yield a (non-null) node. -/
def Resolution.isFound : Resolution → Bool
  | .found _ => true
  | _ => false

/-- Model-level notifications: the structural events of the diff pass,
a marker recording that a full-tree reconciliation (syncTree) ran, a
marker for a faulted reconciliation, and the full-refresh notification
(the dataChanged(QModelIndex(), QModelIndex()) emission). -/
inductive MEvt : Type where
  | rem (first last : Nat)
  | ins (first last : Nat)
  | syncRun
  | syncFault
  | refresh
deriving DecidableEq, Repr

def MEvt.ofEvt : Evt → MEvt
  | .rem f l => .rem f l
  | .ins f l => .ins f l

/-- The engine state driven by beginUpdate/endUpdate: the reentrancy
counter m_updating (an int in the source), the shadow root, the adapter
and the step budget given to the embedded sync. -/
structure Model : Type where
  updating : Int
  root : Node
  adapter : Adapter
  fuel : Nat

/-- VirtualTreeModel::syncTree: reconcile the whole shadow tree against
the live top-level collection; the syncRun marker records that a full
reconciliation ran. -/
def doSyncTree (m : Model) : Model × List MEvt :=
  match syncNodeList m.adapter m.fuel none m.root with
  | .ok r => ({ m with root := r.1 }, MEvt.syncRun :: r.2.map MEvt.ofEvt)
  | .error _ => (m, [MEvt.syncRun, MEvt.syncFault])

/-- VirtualTreeModel::beginUpdate: ++m_updating, nothing else. -/
def beginUpdate (m : Model) : Model × List MEvt :=
  ({ m with updating := m.updating + 1 }, [])

/-- VirtualTreeModel::endUpdate: when the depth is exactly 1 the whole
tree is reconciled before the decrement; after the decrement, once the
depth reaches 0, the consumer is notified of a full refresh. -/
def endUpdate (m : Model) : Model × List MEvt :=
  let p := if m.updating == 1 then doSyncTree m else (m, [])
  let m2 : Model := { p.1 with updating := p.1.updating - 1 }
  if m2.updating == 0 then (m2, p.2 ++ [MEvt.refresh]) else (m2, p.2)

/-- The two calls a batching client issues. -/
inductive Op : Type where
  | beginU
  | endU

def stepOp (m : Model) : Op → Model × List MEvt
  | .beginU => beginUpdate m
  | .endU => endUpdate m

/-- Run a call sequence, concatenating the emitted notifications. -/
def runOps (m : Model) : List Op → Model × List MEvt
  | [] => (m, [])
  | op :: ops =>
    let p := stepOp m op
    let q := runOps p.1 ops
    (q.1, p.2 ++ q.2)

/-- children[j].parentIndex = k + j along a sibling list. -/
def listIdxOk : Nat → List Node → Bool
  | _, [] => true
  | k, c :: cs => (c.parentIndex == k) && listIdxOk (k + 1) cs

mutual
/-- The tree-wide position invariant of the spec:
children[i].position == i at every node of the shadow tree. -/
def posInvB : Node → Bool
  | .mk _ _ _ _ _ cs => listIdxOk 0 cs && posInvAll cs
/-- The position invariant over a list of sibling subtrees. -/
def posInvAll : List Node → Bool
  | [] => true
  | c :: cs => posInvB c && posInvAll cs
end

section Fixtures

/-- Live order [X, A, B] = [2, 0, 1] at top level (front insertion). -/
def aFrontIns : Adapter :=
  { live := fun o => match o with | none => [2, 0, 1] | some _ => []
    parentOf := fun _ => none }

/-- Live order [B, A] = [1, 0] at top level (pure swap). -/
def aSwap : Adapter :=
  { live := fun o => match o with | none => [1, 0] | some _ => []
    parentOf := fun _ => none }

/-- An entirely empty live source. -/
def aEmpty : Adapter :=
  { live := fun _ => [], parentOf := fun _ => none }

/-- Root whose cache holds children [A, B] = [0, 1], neither child's
subtree materialized. -/
def rootAB : Node :=
  .mk none 0 false false true
    [.mk (some 0) 0 false false false [], .mk (some 1) 1 false false false []]

/-- A root whose children were loaded at a time the source was empty:
childInitialized is true and the cached child list is empty. -/
def rootLoadedEmpty : Node := .mk none 0 false false true []

/-- A root that has never loaded its children. -/
def rootUnloaded : Node := .mk none 0 false false false []

/-- An unprobed, unloaded leaf node for item 3. -/
def probeNode : Node := .mk (some 3) 0 false false false []

/-- Ancestry with a self-cycle one level up: parentOf 1 = 2 and
parentOf 2 = 2, while the source also reports item 1 present under
item 2. -/
def aCycleDeep : Adapter :=
  { live := fun o => match o with | some 2 => [1] | _ => []
    parentOf := fun i => match i with | 1 => some 2 | 2 => some 2 | _ => none }

/-- Direct self-cycle: parentOf 4 = 4. -/
def aCycleSelf : Adapter :=
  { live := fun _ => [], parentOf := fun i => match i with | 4 => some 4 | _ => none }

/-- Item 5 lives under the parentless root item 7, and the top-level
collection holds exactly item 5; the cached root however was loaded when
the source was empty, so its cached children are stale. -/
def aStaleParent : Adapter :=
  { live := fun o => match o with | some 7 => [5] | _ => []
    parentOf := fun i => match i with | 5 => some 7 | 7 => none | _ => none }

/-- Item 5 under parentless root item 7, with a consistent top-level
collection [5]. -/
def aResolveOk : Adapter :=
  { live := fun o => match o with | some 7 => [5] | none => [5] | _ => []
    parentOf := fun i => match i with | 5 => some 7 | 7 => none | _ => none }

/-- A live source in which item 3 has gained children [8, 9]. -/
def aGained : Adapter :=
  { live := fun o => match o with | some 3 => [8, 9] | _ => []
    parentOf := fun _ => none }

/-- A concrete engine state at rest (depth 0). -/
def mEx : Model := { updating := 0, root := rootAB, adapter := aSwap, fuel := 30 }

end Fixtures

/-- C1: after reconcile the cached children must equal, by identity and
in order, the live children.  The code violates this: with cache [A, B]
(items 0, 1, subtrees not materialized) and live order [X, A, B] (items
2, 0, 1), syncNodeList completes normally but produces cache [X, B] —
the matched node A ends up inside the next unmatched run because
srcStart is fixed before the insertion block advances srcCur, and is
erased; the live order says [X, A, B].  This theorem evaluates the
embedded sync at that failing input. -/
theorem c1_order_fidelity_violated :
    (syncNodeList aFrontIns 30 none rootAB).map
        (fun p => (p.1.children.map Node.item, p.2))
      = .ok ([some 2, some 1], [Evt.ins 0 0, Evt.rem 1 1]) ∧
    ([some 2, some 1] : List (Option Nat)) ≠ (aFrontIns.live none).map some :=
  ⟨rfl, by decide⟩

/-- C2: reconciling twice with no source mutation in between must emit
zero events on the second run.  The code violates this: with cache
[A, B] and live order [B, A], the first pass leaves the cache as [B]
(losing A), so the second pass—against the unchanged source—emits an
insert-range event re-adding A at row 1. -/
theorem c2_idempotence_violated :
    ((syncNodeList aSwap 30 none rootAB).bind
        (fun p => syncNodeList aSwap 30 none p.1)).map (fun p => p.2)
      = .ok [Evt.ins 1 1] ∧
    ([Evt.ins 1 1] : List Evt) ≠ [] :=
  ⟨rfl, by decide⟩

/-- C4 counterexample: the claim says the pure swap (cache [A, B], live
[B, A]) emits a removal of A followed by a re-insertion of A after B and
leaves the cache as [B, A].  The code actually emits an insert-range for
B at rows [0, 0] followed by a remove-range of rows [1, 2] which erases
both the old A and the old B, and the final cache is [B] — not [B, A]. -/
theorem c4_swap_claim_false :
    (syncNodeList aSwap 30 none rootAB).map
        (fun p => (p.1.children.map Node.item, p.2))
      = .ok ([some 1], [Evt.ins 0 0, Evt.rem 1 2]) ∧
    ([some 1] : List (Option Nat)) ≠ [some 1, some 0] :=
  ⟨rfl, by decide⟩

/-- C4 amended: when the cached child sequence is [A, B] (subtrees not
materialized) and the live order becomes [B, A], reconciliation emits
exactly two events and never a move event: one insert-range creating a
fresh B at rows [0, 0], then one remove-range for rows [1, 2] erasing
the old A and the old B; afterwards the cache order is [B] alone. -/
theorem c4_swap_actual_behavior :
    (syncNodeList aSwap 30 none rootAB).map
        (fun p => (p.1.children.map Node.item, p.2))
      = .ok ([some 1], [Evt.ins 0 0, Evt.rem 1 2]) ∧
    [Evt.ins 0 0, Evt.rem 1 2].length = 2 :=
  ⟨rfl, rfl⟩

/-- C7: while an update transaction is open (depth > 0), a payload read
for any valid index and any role yields the empty value, is total, and
never reaches the adapter. -/
theorem c7_blank_reads_during_update (updating : Int) (item : Option Nat) (role : Nat)
    (h : 0 < updating) : dataQuery updating true item role = .empty := by
  simp [dataQuery, h]

/-- Witness for c7_blank_reads_during_update at depth 1. -/
theorem c7_blank_reads_during_update_witness :
    dataQuery 1 true (some 0) 0 = DataRes.empty :=
  c7_blank_reads_during_update 1 (some 0) 0 (by decide)

/-- C9 counterexample: the claim covers every node including the root,
but VirtualTreeModel::hasChildren returns true unconditionally for the
root (an invalid parent index) without looking at the cache: for a root
whose children were loaded and are empty it answers true although the
cached child list is empty, and performs no probe and no recording. -/
theorem c9_root_hasChildren_claim_false :
    hasChildrenQuery aEmpty true rootLoadedEmpty = (true, rootLoadedEmpty) ∧
    (true : Bool) ≠ decide (0 < rootLoadedEmpty.children.length) :=
  ⟨rfl, by decide⟩

/-- C9 amended: for the root, hasChildren answers true unconditionally
and changes nothing; for every non-root node it answers children
non-empty when childrenLoaded, and otherwise performs the cheap probe,
records presenceProbed and cachedPresence, and returns the probe result
without materializing children. -/
theorem c9_hasChildren_behavior (a : Adapter) (n : Node) :
    hasChildrenQuery a true n = (true, n) ∧
    (n.childInitialized = true →
      hasChildrenQuery a false n = (decide (0 < n.children.length), n)) ∧
    (n.childInitialized = false →
      hasChildrenQuery a false n = (a.hasItems n.item, n.markQueryed (a.hasItems n.item))) := by
  refine ⟨rfl, fun h => ?_, fun h => ?_⟩ <;> simp [hasChildrenQuery, h]

/-- Witness for c9_hasChildren_behavior: probing the unloaded probeNode
against the empty source answers false and records the probe. -/
theorem c9_hasChildren_behavior_witness :
    hasChildrenQuery aEmpty false probeNode
      = (aEmpty.hasItems probeNode.item, probeNode.markQueryed (aEmpty.hasItems probeNode.item)) :=
  (c9_hasChildren_behavior aEmpty probeNode).2.2 rfl

/-- C8 counterexample: the claim covers a self-parent cycle at any depth
of the ancestor chain, but only the immediate check exists in the code.
With parentOf 1 = 2, parentOf 2 = 2 and item 1 live under item 2, the
recursive resolution of the parent yields a null node, indexOf succeeds,
and getItemNode then calls loadChildren through the null parent
pointer — a fault, not the claimed "not found". -/
theorem c8_deep_cycle_claim_false :
    getItemNode aCycleDeep rootLoadedEmpty 5 1 = .nullDeref ∧
    Resolution.nullDeref ≠ Resolution.notFound :=
  ⟨rfl, fun h => Resolution.noConfusion h⟩

/-- C8 amended: for an item that the source reports as its own direct
parent, getItemNode returns "not found" (a null node) without faulting;
a self-cycle deeper in the chain can instead fault as shown by the
counterexample. -/
theorem c8_direct_cycle_not_found (a : Adapter) (root : Node) (fuel item : Nat)
    (h : a.parentOf item = some item) :
    getItemNode a root (fuel + 1) item = .notFound := by
  simp [getItemNode, h]

/-- Witness for c8_direct_cycle_not_found on the direct self-cycle
parentOf 4 = 4. -/
theorem c8_direct_cycle_not_found_witness :
    getItemNode aCycleSelf rootLoadedEmpty 1 4 = Resolution.notFound :=
  c8_direct_cycle_not_found aCycleSelf rootLoadedEmpty 0 4 rfl

/-- C10 counterexample: the claim asserts that whenever the recursive
parent resolution returns a node and the live indexOf succeeds, the
returned live position is within the bounds of the parent's cached
children after loadChildren.  With a root whose children were loaded
while the source was empty (stale), and a source that now reports item 5
under the parentless item 7, the parent resolves to the root, indexOf
yields 0, loadChildren is a no-op on the already-initialized root, and
children[0] indexes an empty vector: out of range. -/
theorem c10_stale_parent_oob :
    getItemNode aStaleParent rootLoadedEmpty 2 7 = .found rootLoadedEmpty ∧
    indexOfFrom (aStaleParent.live (some 7)) (some 5) 0 = some 0 ∧
    (loadChildren aStaleParent rootLoadedEmpty).children.length = 0 ∧
    getItemNode aStaleParent rootLoadedEmpty 3 5 = .oob :=
  ⟨rfl, rfl, rfl, rfl⟩

/-- C10 amended: when the parent-level search succeeds and additionally
the live position is within the bounds of the parent's children after
loadChildren, getItemNode dereferences no null pointer and indexes in
range, returning that child; with a stale previously-loaded parent the
position can fall outside the cached bounds and the access is out of
range, as the counterexample shows. -/
theorem c10_resolution_in_bounds (a : Adapter) (root : Node) (fuel item p idx : Nat)
    (pn : Node) (hp : a.parentOf item = some p) (hne : p ≠ item)
    (hres : getItemNode a root fuel p = .found pn)
    (hidx : indexOfFrom (a.live (some p)) (some item) 0 = some idx)
    (hbound : idx < (loadChildren a pn).children.length) :
    getItemNode a root (fuel + 1) item
      = .found ((loadChildren a pn).children.getD idx defaultNode) := by
  simp [getItemNode, hp, hne, hres, hidx, hbound]

/-- Witness for c10_resolution_in_bounds: resolving item 5 under the
parentless root item 7 with a fresh (unloaded) root succeeds in
bounds. -/
theorem c10_resolution_in_bounds_witness :
    getItemNode aResolveOk rootUnloaded 3 5
      = .found ((loadChildren aResolveOk rootUnloaded).children.getD 0 defaultNode) :=
  c10_resolution_in_bounds aResolveOk rootUnloaded 2 5 7 0 rootUnloaded rfl
    (by decide) rfl rfl (by decide)

section NodeLemmas

@[simp]
theorem Node.parentIndex_setParentIndex (n : Node) (k : Nat) :
    (n.setParentIndex k).parentIndex = k := by
  cases n; rfl

@[simp]
theorem Node.item_setParentIndex (n : Node) (k : Nat) :
    (n.setParentIndex k).item = n.item := by
  cases n; rfl

@[simp]
theorem Node.parentIndex_setChildrenInit (n : Node) (cs : List Node) :
    (n.setChildrenInit cs).parentIndex = n.parentIndex := by
  cases n; rfl

@[simp]
theorem Node.item_setChildrenInit (n : Node) (cs : List Node) :
    (n.setChildrenInit cs).item = n.item := by
  cases n; rfl

@[simp]
theorem Node.children_setChildrenInit (n : Node) (cs : List Node) :
    (n.setChildrenInit cs).children = cs := by
  cases n; rfl

@[simp]
theorem Node.parentIndex_forceInit (n : Node) :
    n.forceInit.parentIndex = n.parentIndex := by
  cases n; rfl

@[simp]
theorem Node.item_forceInit (n : Node) : n.forceInit.item = n.item := by
  cases n; rfl

@[simp]
theorem Node.children_forceInit (n : Node) : n.forceInit.children = n.children := by
  cases n; rfl

@[simp]
theorem Node.item_markQueryed (n : Node) (b : Bool) : (n.markQueryed b).item = n.item := by
  cases n; rfl

@[simp]
theorem Node.children_markQueryed (n : Node) (b : Bool) :
    (n.markQueryed b).children = n.children := by
  cases n; rfl

@[simp]
theorem Node.hasChildrenQueryed_markQueryed (n : Node) (b : Bool) :
    (n.markQueryed b).hasChildrenQueryed = true := by
  cases n; rfl

@[simp]
theorem Node.hasChildren_markQueryed (n : Node) (b : Bool) :
    (n.markQueryed b).hasChildren = b := by
  cases n; rfl

@[simp]
theorem Node.childInitialized_markQueryed (n : Node) (b : Bool) :
    (n.markQueryed b).childInitialized = n.childInitialized := by
  cases n; rfl

theorem posInvB_def (n : Node) :
    posInvB n = (listIdxOk 0 n.children && posInvAll n.children) := by
  cases n; rfl

@[simp]
theorem posInvAll_nil : posInvAll [] = true := rfl

@[simp]
theorem posInvAll_cons (c : Node) (cs : List Node) :
    posInvAll (c :: cs) = (posInvB c && posInvAll cs) := by
  rfl

@[simp]
theorem posInvB_setParentIndex (n : Node) (k : Nat) :
    posInvB (n.setParentIndex k) = posInvB n := by
  cases n; rfl

@[simp]
theorem posInvB_setChildrenInit (n : Node) (cs : List Node) :
    posInvB (n.setChildrenInit cs) = (listIdxOk 0 cs && posInvAll cs) := by
  cases n; rfl

@[simp]
theorem posInvB_defaultNode : posInvB defaultNode = true := rfl

@[simp]
theorem posInvB_freshNode (it k : Nat) : posInvB (freshNode it k) = true := rfl

end NodeLemmas

section ListInvLemmas

@[simp]
theorem renumFrom_nil (k : Nat) : renumFrom k [] = [] := rfl

@[simp]
theorem renumFrom_cons (k : Nat) (n : Node) (l : List Node) :
    renumFrom k (n :: l) = n.setParentIndex k :: renumFrom (k + 1) l := rfl

@[simp]
theorem renumFrom_length (l : List Node) : ∀ k, (renumFrom k l).length = l.length := by
  induction l with
  | nil => intro k; rfl
  | cons n l ih => intro k; simp [renumFrom, ih]

theorem renumFrom_map_item (l : List Node) : ∀ k,
    (renumFrom k l).map Node.item = l.map Node.item := by
  induction l with
  | nil => intro k; rfl
  | cons n l ih => intro k; simp [renumFrom, ih]

theorem listIdxOk_renumFrom (l : List Node) : ∀ k, listIdxOk k (renumFrom k l) = true := by
  induction l with
  | nil => intro k; rfl
  | cons n l ih => intro k; simp [renumFrom, listIdxOk, ih]

theorem posInvAll_renumFrom (l : List Node) : ∀ k, posInvAll (renumFrom k l) = posInvAll l := by
  induction l with
  | nil => intro k; rfl
  | cons n l ih => intro k; simp [renumFrom, ih]

theorem listIdxOk_append (l1 : List Node) : ∀ (l2 : List Node) (k : Nat),
    listIdxOk k (l1 ++ l2) = (listIdxOk k l1 && listIdxOk (k + l1.length) l2) := by
  induction l1 with
  | nil => intro l2 k; simp [listIdxOk]
  | cons c l1 ih =>
      intro l2 k
      simp [listIdxOk, ih, Bool.and_assoc, Nat.add_comm, Nat.add_assoc, Nat.add_left_comm]

theorem listIdxOk_take (l : List Node) : ∀ (n k : Nat), listIdxOk k l = true →
    listIdxOk k (l.take n) = true := by
  induction l with
  | nil => intro n k _; simp [listIdxOk]
  | cons c l ih =>
      intro n k h
      cases n with
      | zero => rfl
      | succ n =>
          simp only [List.take_succ_cons, listIdxOk, Bool.and_eq_true] at h ⊢
          exact ⟨h.1, ih n (k + 1) h.2⟩

theorem listIdxOk_getD (l : List Node) : ∀ (i k : Nat), listIdxOk k l = true →
    i < l.length → (l.getD i defaultNode).parentIndex = k + i := by
  induction l with
  | nil => intro i k _ hi; simp at hi
  | cons c l ih =>
      intro i k h hi
      simp only [listIdxOk, Bool.and_eq_true, beq_iff_eq] at h
      cases i with
      | zero => simpa using h.1
      | succ i =>
          have := ih i (k + 1) h.2 (by simpa using Nat.lt_of_succ_lt_succ hi)
          simpa [List.getD, Nat.add_comm, Nat.add_assoc, Nat.add_left_comm] using this

theorem listIdxOk_set (l : List Node) : ∀ (i k : Nat) (n : Node), listIdxOk k l = true →
    (i < l.length → n.parentIndex = (l.getD i defaultNode).parentIndex) →
    listIdxOk k (l.set i n) = true := by
  induction l with
  | nil => intro i k n _ _; rfl
  | cons c l ih =>
      intro i k n h hpi
      simp only [listIdxOk, Bool.and_eq_true, beq_iff_eq] at h
      cases i with
      | zero =>
          have hn : n.parentIndex = c.parentIndex := by simpa using hpi (by simp)
          simp [listIdxOk, hn, h.1, h.2]
      | succ i =>
          simp only [List.set_cons_succ, listIdxOk, Bool.and_eq_true, beq_iff_eq]
          refine ⟨h.1, ih i (k + 1) n h.2 ?_⟩
          intro hlt
          simpa [List.getD] using hpi (by simpa using Nat.succ_lt_succ hlt)

theorem posInvAll_eq_all (l : List Node) : posInvAll l = l.all posInvB := by
  induction l with
  | nil => rfl
  | cons c l ih => simp [ih]

theorem posInvAll_iff (l : List Node) :
    posInvAll l = true ↔ ∀ x ∈ l, posInvB x = true := by
  rw [posInvAll_eq_all]
  exact List.all_eq_true

theorem posInvAll_append (l1 l2 : List Node) :
    posInvAll (l1 ++ l2) = (posInvAll l1 && posInvAll l2) := by
  simp [posInvAll_eq_all]

theorem posInvAll_take (l : List Node) (n : Nat) (h : posInvAll l = true) :
    posInvAll (l.take n) = true := by
  rw [posInvAll_iff] at h ⊢
  exact fun x hx => h x (List.take_subset n l hx)

theorem posInvAll_drop (l : List Node) (n : Nat) (h : posInvAll l = true) :
    posInvAll (l.drop n) = true := by
  rw [posInvAll_iff] at h ⊢
  exact fun x hx => h x (List.drop_subset n l hx)

theorem posInvAll_set (l : List Node) (i : Nat) (n : Node) (h : posInvAll l = true)
    (hn : posInvB n = true) : posInvAll (l.set i n) = true := by
  rw [posInvAll_iff] at h ⊢
  intro x hx
  rcases List.mem_or_eq_of_mem_set hx with hmem | rfl
  · exact h x hmem
  · exact hn

theorem posInvAll_getD (l : List Node) (i : Nat) (h : posInvAll l = true) :
    posInvB (l.getD i defaultNode) = true := by
  by_cases hi : i < l.length
  · rw [List.getD_eq_getElem l defaultNode hi]
    exact (posInvAll_iff l).1 h _ (List.getElem_mem hi)
  · rw [List.getD_eq_default l defaultNode (Nat.le_of_not_lt hi)]
    rfl

end ListInvLemmas

section StructuralOpLemmas

theorem eraseChildren_invariants (l : List Node) (b e : Nat)
    (hIdx : listIdxOk 0 l = true) (hAll : posInvAll l = true)
    (hbe : b < e) (he : e ≤ l.length) :
    listIdxOk 0 (eraseChildren l b e) = true ∧ posInvAll (eraseChildren l b e) = true := by
  have hb : b < l.length := Nat.lt_of_lt_of_le hbe he
  have hbase : (l.getD b defaultNode).parentIndex = b := by
    simpa using listIdxOk_getD l b 0 hIdx hb
  have hlen : (l.take b).length = b := by
    simp [List.length_take, Nat.min_eq_left (Nat.le_of_lt hb)]
  constructor
  · rw [eraseChildren, hbase, listIdxOk_append, hlen]
    simp [listIdxOk_take l b 0 hIdx, listIdxOk_renumFrom]
  · rw [eraseChildren, hbase, posInvAll_append]
    simp [posInvAll_take l b hAll, posInvAll_renumFrom, posInvAll_drop l e hAll]

theorem posInvAll_freshList (items : List Nat) :
    posInvAll (items.map (fun it => freshNode it 0)) = true := by
  rw [posInvAll_iff]
  intro x hx
  rcases List.mem_map.1 hx with ⟨it, _, rfl⟩
  rfl

theorem insertFresh_decomp (l : List Node) (pos : Nat) (items : List Nat) :
    insertFresh l pos items
      = (l.take pos ++ renumFrom pos (items.map (fun it => freshNode it 0))) ++ l.drop pos := by
  simp [insertFresh]

theorem insert_invariants (l : List Node) (pos : Nat) (items : List Nat)
    (hIdx : listIdxOk 0 l = true) (hAll : posInvAll l = true) (hpos : pos ≤ l.length) :
    listIdxOk 0 (insertedChildren (insertFresh l pos items) (pos + items.length)) = true ∧
    posInvAll (insertedChildren (insertFresh l pos items) (pos + items.length)) = true := by
  have hlenA : (l.take pos).length = pos := by
    simp [List.length_take, Nat.min_eq_left hpos]
  have hlenAB : (l.take pos ++ renumFrom pos (items.map (fun it => freshNode it 0))).length
      = pos + items.length := by
    simp [hlenA]
  have hset : insertedChildren (insertFresh l pos items) (pos + items.length)
      = (l.take pos ++ renumFrom pos (items.map (fun it => freshNode it 0)))
          ++ renumFrom (pos + items.length) (l.drop pos) := by
    rw [insertedChildren, insertFresh_decomp, List.take_left' hlenAB, List.drop_left' hlenAB]
  constructor
  · rw [hset, listIdxOk_append, listIdxOk_append, hlenAB, hlenA]
    simp [listIdxOk_take l pos 0 hIdx, listIdxOk_renumFrom]
  · rw [hset, posInvAll_append, posInvAll_append]
    simp [posInvAll_take l pos hAll, posInvAll_renumFrom, posInvAll_drop l pos hAll,
      posInvAll_freshList]

@[simp]
theorem posInvB_forceInit (n : Node) : posInvB n.forceInit = posInvB n := by
  cases n; rfl

theorem isInitialized_snd_parentIndex (a : Adapter) (n : Node) :
    (isInitialized a n).2.parentIndex = n.parentIndex := by
  unfold isInitialized
  split_ifs <;> simp

theorem isInitialized_snd_item (a : Adapter) (n : Node) :
    (isInitialized a n).2.item = n.item := by
  unfold isInitialized
  split_ifs <;> simp

theorem isInitialized_snd_children (a : Adapter) (n : Node) :
    (isInitialized a n).2.children = n.children := by
  unfold isInitialized
  split_ifs <;> simp

theorem posInvB_isInitialized_snd (a : Adapter) (n : Node) :
    posInvB (isInitialized a n).2 = posInvB n := by
  unfold isInitialized
  split_ifs <;> simp

@[simp]
theorem bumpCur_nodes (st : LoopSt) : (bumpCur st).nodes = st.nodes := rfl

theorem eraseStage_invariants (fin : Bool) (st : LoopSt)
    (hIdx : listIdxOk 0 st.nodes = true) (hAll : posInvAll st.nodes = true)
    (hcur : st.srcCur ≤ st.nodes.length) :
    listIdxOk 0 (eraseStage fin st).nodes = true ∧
    posInvAll (eraseStage fin st).nodes = true := by
  unfold eraseStage
  split
  · next hlt =>
      simpa using eraseChildren_invariants st.nodes st.srcStart st.srcCur hIdx hAll hlt hcur
  · exact ⟨hIdx, hAll⟩

theorem insStep_invariants (a : Adapter) (parent : Option Nat) (st : LoopSt) (d : Nat)
    (s : LoopSt) (hIdx : listIdxOk 0 st.nodes = true) (hAll : posInvAll st.nodes = true)
    (h : insStep a parent st d = .ok s) :
    listIdxOk 0 s.nodes = true ∧ posInvAll s.nodes = true := by
  unfold insStep at h
  split at h
  · split at h
    · next hle =>
        cases h
        simpa using insert_invariants st.nodes st.srcCur
          ((List.range (d - st.destStart)).map (fun i => a.getItem parent (st.destStart + i)))
          hIdx hAll hle
    · cases h
  · cases h
    exact ⟨hIdx, hAll⟩

theorem matchStep_invariants (a : Adapter) (parent : Option Nat) (fin : Bool) (st : LoopSt)
    (d : Nat) (s : LoopSt) (hIdx : listIdxOk 0 st.nodes = true)
    (hAll : posInvAll st.nodes = true) (hcur : st.srcCur ≤ st.nodes.length)
    (h : matchStep a parent fin st d = .ok s) :
    listIdxOk 0 s.nodes = true ∧ posInvAll s.nodes = true := by
  unfold matchStep at h
  have h1 := eraseStage_invariants fin st hIdx hAll hcur
  dsimp only at h
  cases hins : insStep a parent
      { nodes := (eraseStage fin st).nodes, srcStart := (eraseStage fin st).srcCur + 1,
        srcCur := (eraseStage fin st).srcCur, destStart := (eraseStage fin st).destStart,
        evts := (eraseStage fin st).evts }
      (if fin then a.getItemsCount parent else d) with
  | error f =>
      rw [hins] at h
      simp [Except.map] at h
  | ok s3 =>
      rw [hins] at h
      simp only [Except.map, Except.ok.injEq] at h
      subst h
      have h2 := insStep_invariants a parent
        { nodes := (eraseStage fin st).nodes, srcStart := (eraseStage fin st).srcCur + 1,
          srcCur := (eraseStage fin st).srcCur, destStart := (eraseStage fin st).destStart,
          evts := (eraseStage fin st).evts }
        (if fin then a.getItemsCount parent else d) s3 (by simpa using h1.1)
        (by simpa using h1.2) hins
      simpa using h2


theorem getD_set_lt (l : List Node) (i : Nat) (x : Node) (h : i < l.length) :
    (l.set i x).getD i defaultNode = x := by
  rw [List.getD_eq_getElem _ _ (by simpa using h)]
  simp

end StructuralOpLemmas

section SyncInvariant

theorem syncGo_invariants : ∀ (fuel : Nat) (a : Adapter) (parent : Option Nat) (st st1 : LoopSt),
    syncGo a fuel parent st = .ok st1 →
    listIdxOk 0 st.nodes = true → posInvAll st.nodes = true →
    listIdxOk 0 st1.nodes = true ∧ posInvAll st1.nodes = true := by
  intro fuel
  induction fuel with
  | zero =>
      intro a parent st st1 h _ _
      exact absurd h (by simp [syncGo])
  | succ fuel ih =>
      intro a parent st st1 h hIdx hAll
      simp only [syncGo] at h
      by_cases hle : st.srcCur ≤ st.nodes.length
      · rw [if_pos hle] at h
        by_cases hlt : st.srcCur < st.nodes.length
        · rw [if_pos hlt] at h
          cases hidx : indexOfFrom (a.live parent) ((st.nodes.getD st.srcCur defaultNode).item)
              st.destStart with
          | none =>
              simp only [hidx] at h
              exact ih a parent (bumpCur st) st1 h hIdx hAll
          | some destCur =>
              simp only [hidx] at h
              cases hms : matchStep a parent false st destCur with
              | error f =>
                  simp only [hms] at h
                  exact Except.noConfusion h
              | ok s4 =>
                  simp only [hms] at h
                  have hs4 := matchStep_invariants a parent false st destCur s4 hIdx hAll hle hms
                  have hg : posInvB (s4.nodes.getD s4.srcCur defaultNode) = true :=
                    posInvAll_getD s4.nodes s4.srcCur hs4.2
                  have hpr2 : posInvB (isInitialized a (s4.nodes.getD s4.srcCur defaultNode)).2
                      = true := by
                    rw [posInvB_isInitialized_snd]; exact hg
                  have hsetIdx : listIdxOk 0
                      (s4.nodes.set s4.srcCur
                        (isInitialized a (s4.nodes.getD s4.srcCur defaultNode)).2) = true := by
                    refine listIdxOk_set s4.nodes s4.srcCur 0 _ hs4.1 (fun _ => ?_)
                    rw [isInitialized_snd_parentIndex]
                  have hsetAll : posInvAll
                      (s4.nodes.set s4.srcCur
                        (isInitialized a (s4.nodes.getD s4.srcCur defaultNode)).2) = true :=
                    posInvAll_set s4.nodes s4.srcCur _ hs4.2 hpr2
                  by_cases hpr : (isInitialized a (s4.nodes.getD s4.srcCur defaultNode)).1 = true
                  · rw [if_pos hpr] at h
                    cases hcs : syncGo a fuel
                        (isInitialized a (s4.nodes.getD s4.srcCur defaultNode)).2.item
                        { nodes := (isInitialized a (s4.nodes.getD s4.srcCur defaultNode)).2.children,
                          srcStart := 0, srcCur := 0, destStart := 0, evts := [] } with
                    | error f =>
                        simp only [hcs] at h
                        exact Except.noConfusion h
                    | ok cst =>
                        simp only [hcs] at h
                        have hchInv : listIdxOk 0
                            (isInitialized a (s4.nodes.getD s4.srcCur defaultNode)).2.children
                              = true ∧
                            posInvAll
                            (isInitialized a (s4.nodes.getD s4.srcCur defaultNode)).2.children
                              = true := by
                          have := hpr2
                          rw [posInvB_def, Bool.and_eq_true] at this
                          exact this
                        have hcstInv := ih _ _ _ cst hcs hchInv.1 hchInv.2
                        have hncB : posInvB
                            ((isInitialized a (s4.nodes.getD s4.srcCur defaultNode)).2.setChildrenInit
                              cst.nodes) = true := by
                          rw [posInvB_setChildrenInit, Bool.and_eq_true]
                          exact hcstInv
                        refine ih a parent _ st1 h ?_ ?_
                        · dsimp only [bumpCur_nodes]
                          refine listIdxOk_set _ s4.srcCur 0 _ hsetIdx (fun hlen => ?_)
                          rw [Node.parentIndex_setChildrenInit, getD_set_lt _ _ _ (by simpa using hlen)]
                        · dsimp only [bumpCur_nodes]
                          exact posInvAll_set _ s4.srcCur _ hsetAll hncB
                  · rw [if_neg hpr] at h
                    exact ih a parent _ st1 h hsetIdx hsetAll
        · rw [if_neg hlt] at h
          cases hms : matchStep a parent true st 0 with
          | error f =>
              simp only [hms] at h
              exact Except.noConfusion h
          | ok s4 =>
              simp only [hms] at h
              have hs4 := matchStep_invariants a parent true st 0 s4 hIdx hAll hle hms
              exact ih a parent (bumpCur s4) st1 h hs4.1 hs4.2
      · rw [if_neg hle] at h
        cases h
        exact ⟨hIdx, hAll⟩

/-- Tree-wide position invariant preservation by one reconciliation
pass: when syncNodeList completes, the resulting subtree satisfies
children[i].parentIndex = i at every node, provided the input did. -/
theorem syncNodeList_posInv (a : Adapter) (fuel : Nat) (parent : Option Nat) (node : Node)
    (r : Node × List Evt) (hn : posInvB node = true)
    (h : syncNodeList a fuel parent node = .ok r) : posInvB r.1 = true := by
  unfold syncNodeList at h
  cases hg : syncGo a fuel parent
      { nodes := node.children, srcStart := 0, srcCur := 0, destStart := 0, evts := [] } with
  | error f => rw [hg] at h; cases h
  | ok st =>
      rw [hg] at h
      cases h
      have hin : listIdxOk 0 node.children = true ∧ posInvAll node.children = true := by
        have := hn
        rw [posInvB_def, Bool.and_eq_true] at this
        exact this
      have hout := syncGo_invariants fuel a parent _ st hg hin.1 hin.2
      rw [posInvB_setChildrenInit, Bool.and_eq_true]
      exact hout

end SyncInvariant

section BatchingLemmas

@[simp]
theorem Node.item_freshNode (it k : Nat) : (freshNode it k).item = some it := rfl

theorem doSyncTree_updating (m : Model) : (doSyncTree m).1.updating = m.updating := by
  unfold doSyncTree
  split <;> rfl

theorem count_syncRun_map_ofEvt (l : List Evt) :
    (l.map MEvt.ofEvt).count MEvt.syncRun = 0 := by
  induction l with
  | nil => rfl
  | cons e l ih => cases e <;> simp [MEvt.ofEvt, List.count_cons, ih]

theorem count_refresh_map_ofEvt (l : List Evt) :
    (l.map MEvt.ofEvt).count MEvt.refresh = 0 := by
  induction l with
  | nil => rfl
  | cons e l ih => cases e <;> simp [MEvt.ofEvt, List.count_cons, ih]

theorem count_syncRun_doSyncTree (m : Model) : (doSyncTree m).2.count MEvt.syncRun = 1 := by
  unfold doSyncTree
  split <;> simp [List.count_cons, count_syncRun_map_ofEvt]

theorem count_refresh_doSyncTree (m : Model) : (doSyncTree m).2.count MEvt.refresh = 0 := by
  unfold doSyncTree
  split <;> simp [List.count_cons, count_refresh_map_ofEvt]

theorem runOps_append (l1 : List Op) : ∀ (m : Model) (l2 : List Op),
    runOps m (l1 ++ l2)
      = ((runOps (runOps m l1).1 l2).1, (runOps m l1).2 ++ (runOps (runOps m l1).1 l2).2) := by
  induction l1 with
  | nil => intro m l2; simp [runOps]
  | cons op l1 ih => intro m l2; simp [runOps, ih, List.append_assoc]

theorem runOps_begins (N : Nat) : ∀ (m : Model),
    runOps m (List.replicate N Op.beginU) = ({ m with updating := m.updating + N }, []) := by
  induction N with
  | zero => intro m; cases m; simp [runOps]
  | succ N ih =>
      intro m
      rw [List.replicate_succ]
      cases m with
      | mk u r a f =>
          simp only [runOps, stepOp, beginUpdate, ih]
          have harith : u + 1 + (N : Int) = u + ((N + 1 : Nat) : Int) := by
            push_cast
            omega
          rw [harith]
          simp

theorem endUpdate_noSync (m : Model) (h1 : (m.updating == 1) = false)
    (h2 : ((m.updating - 1) == 0) = false) :
    endUpdate m = ({ m with updating := m.updating - 1 }, []) := by
  unfold endUpdate
  rw [h1]
  simp only [Bool.false_eq_true, if_false]
  simp [h2]

theorem endUpdate_atOne (m : Model) (h : m.updating = 1) :
    endUpdate m = ({ (doSyncTree m).1 with updating := 0 }, (doSyncTree m).2 ++ [MEvt.refresh]) := by
  unfold endUpdate
  rw [h]
  simp [doSyncTree_updating, h]

theorem withUpdating_one_collapse (m : Model) (v : Int) :
    ({ ({ m with updating := v } : Model) with updating := (1 : Int) } : Model)
      = { m with updating := (1 : Int) } := by
  cases m; rfl

theorem runOps_ends_trace (k : Nat) : ∀ (m : Model), m.updating = (k : Int) + 1 →
    (runOps m (List.replicate (k + 1) Op.endU)).2
      = (doSyncTree { m with updating := (1 : Int) }).2 ++ [MEvt.refresh] := by
  induction k with
  | zero =>
      intro m hm
      have hm1 : m.updating = 1 := by simpa using hm
      have hmeq : ({ m with updating := (1 : Int) } : Model) = m := by
        cases m
        simp_all
      rw [List.replicate_succ, List.replicate_zero]
      simp [runOps, stepOp, endUpdate_atOne m hm1, hmeq]
  | succ k ih =>
      intro m hm
      have h1 : (m.updating == 1) = false := by
        rw [hm]
        simp only [beq_eq_false_iff_ne, ne_eq]
        intro hcon
        omega
      have h2 : ((m.updating - 1) == 0) = false := by
        rw [hm]
        simp only [beq_eq_false_iff_ne, ne_eq]
        intro hcon
        omega
      have hnext : ({ m with updating := m.updating - 1 } : Model).updating = (k : Int) + 1 := by
        show m.updating - 1 = (k : Int) + 1
        rw [hm]
        push_cast
        omega
      have hsplit : List.replicate (k + 1 + 1) Op.endU
          = [Op.endU] ++ List.replicate (k + 1) Op.endU := by
        simp [List.replicate_succ]
      have hstep : runOps m [Op.endU] = ({ m with updating := m.updating - 1 }, []) := by
        simp [runOps, stepOp, endUpdate_noSync m h1 h2]
      have hcoll : ({ ({ m with updating := m.updating - 1 } : Model) with
            updating := (1 : Int) } : Model) = { m with updating := (1 : Int) } := by
        cases m; rfl
      rw [hsplit, runOps_append, hstep]
      simp only [List.nil_append]
      rw [ih _ hnext, hcoll]

end BatchingLemmas

/-- C5: starting at depth 0, a balanced sequence of N nested
beginUpdate/endUpdate pairs emits exactly the notifications of a single
full reconciliation run against the state whose depth counter is still 1
(before the final decrement), followed by exactly one full-refresh once
the depth reaches 0: the syncRun marker occurs exactly once and the
refresh notification exactly once, for every N at least 1. -/
theorem c5_batch_collapsing (N : Nat) (hN : 1 ≤ N) (m : Model) (h0 : m.updating = 0) :
    (runOps m (List.replicate N Op.beginU ++ List.replicate N Op.endU)).2
      = (doSyncTree { m with updating := (1 : Int) }).2 ++ [MEvt.refresh] ∧
    ((runOps m (List.replicate N Op.beginU ++ List.replicate N Op.endU)).2).count MEvt.syncRun
      = 1 ∧
    ((runOps m (List.replicate N Op.beginU ++ List.replicate N Op.endU)).2).count MEvt.refresh
      = 1 := by
  obtain ⟨k, rfl⟩ : ∃ k, N = k + 1 := ⟨N - 1, by omega⟩
  have hb := runOps_begins (k + 1) m
  have htr : (runOps m (List.replicate (k + 1) Op.beginU ++ List.replicate (k + 1) Op.endU)).2
      = (doSyncTree { m with updating := (1 : Int) }).2 ++ [MEvt.refresh] := by
    rw [runOps_append, hb]
    have hmid : ({ m with updating := m.updating + ((k + 1 : Nat) : Int) } : Model).updating
        = (k : Int) + 1 := by
      show m.updating + ((k + 1 : Nat) : Int) = (k : Int) + 1
      rw [h0]
      push_cast
      omega
    rw [runOps_ends_trace k _ hmid, withUpdating_one_collapse]
    simp
  refine ⟨htr, ?_, ?_⟩ <;> rw [htr] <;>
    simp [List.count_append, count_syncRun_doSyncTree, count_refresh_doSyncTree, List.count_cons]

section EmptyCacheSync

theorem range_map_getD (l : List Nat) :
    (List.range l.length).map (fun i => l.getD i 0) = l := by
  apply List.ext_getElem
  · simp
  · intro i h1 h2
    simp [List.getD, List.getElem?_eq_getElem h2]

theorem insertedChildren_map_item (l : List Node) (k : Nat) :
    (insertedChildren l k).map Node.item = l.map Node.item := by
  rw [insertedChildren, List.map_append, renumFrom_map_item, ← List.map_append,
    List.take_append_drop]

theorem insertedChildren_length (l : List Node) (k : Nat) :
    (insertedChildren l k).length = l.length := by
  simp [insertedChildren, renumFrom_length]
  omega

theorem insertFresh_nil (items : List Nat) :
    insertFresh [] 0 items = renumFrom 0 (items.map (fun it => freshNode it 0)) := by
  simp [insertFresh]

/-- Reconciling a node whose cache holds no children against a non-empty
live list inserts all live items as one contiguous range: the resulting
cached child identities are exactly the live identities in order, and
the only emitted event is insert-range [0, count-1]. -/
theorem syncNodeList_from_empty (a : Adapter) (f : Nat) (parent : Option Nat) (node : Node)
    (hc : node.children = []) (hl : a.live parent ≠ []) :
    (syncNodeList a (f + 2) parent node).map (fun p => (p.1.children.map Node.item, p.2))
      = .ok ((a.live parent).map some, [Evt.ins 0 ((a.live parent).length - 1)]) := by
  have hlen : 0 < (a.live parent).length := List.length_pos.2 hl
  have hms : matchStep a parent true
        { nodes := [], srcStart := 0, srcCur := 0, destStart := 0, evts := [] } 0
      = .ok { nodes := insertedChildren
                (insertFresh [] 0 ((List.range (a.live parent).length).map
                  (fun i => a.getItem parent i))) (a.live parent).length,
              srcStart := 1, srcCur := (a.live parent).length,
              destStart := (a.live parent).length + 1,
              evts := [Evt.ins 0 ((a.live parent).length - 1)] } := by
    unfold matchStep eraseStage insStep
    simp [Adapter.getItemsCount, hlen, Except.map]
  have hXlen : (insertedChildren
        (insertFresh [] 0 ((List.range (a.live parent).length).map
          (fun i => a.getItem parent i))) (a.live parent).length).length
      = (a.live parent).length := by
    rw [insertedChildren_length, insertFresh_nil]
    simp
  have hgo : syncGo a (f + 2) parent
        { nodes := [], srcStart := 0, srcCur := 0, destStart := 0, evts := [] }
      = .ok { nodes := insertedChildren
                (insertFresh [] 0 ((List.range (a.live parent).length).map
                  (fun i => a.getItem parent i))) (a.live parent).length,
              srcStart := 1, srcCur := (a.live parent).length + 1,
              destStart := (a.live parent).length + 1,
              evts := [Evt.ins 0 ((a.live parent).length - 1)] } := by
    rw [syncGo]
    simp only [List.length_nil, Nat.le_refl, if_true, Nat.lt_irrefl, if_false, hms]
    rw [syncGo]
    rw [if_neg (by simp only [bumpCur, hXlen]; omega)]
    rfl
  have hXitems : (insertedChildren
        (insertFresh [] 0 ((List.range (a.live parent).length).map
          (fun i => a.getItem parent i))) (a.live parent).length).map Node.item
      = (a.live parent).map some := by
    rw [insertedChildren_map_item, insertFresh_nil, renumFrom_map_item]
    rw [show (a.live parent).map some
        = ((List.range (a.live parent).length).map (fun i => (a.live parent).getD i 0)).map some
      from by rw [range_map_getD]]
    simp [List.map_map, Function.comp, Adapter.getItem]
  unfold syncNodeList
  rw [hc]
  simp only [hgo]
  simp [Except.map, hXitems]

end EmptyCacheSync

/-- C6: probing presence on an unloaded, unprobed node against a source
with no children answers false and records
presenceProbed = true / cachedPresence = false; if the source then gains
children under that node, the forced-reconciliation check
(InternalNode::isInitialized) answers true (marking the node
reconcilable) exactly because the cached presence no longer matches the
live truth — in general it answers true for an unloaded node iff the
presence was probed and the cached presence mismatches the live
child count — and the reconciliation pass that then reaches the node
inserts all the now-live children as one insert-range rather than
skipping them. -/
theorem c6_presence_correction (a0 a1 : Adapter) (n : Node) (f : Nat)
    (hci : n.childInitialized = false) (_hq : n.hasChildrenQueryed = false)
    (hc : n.children = []) (h0 : a0.live n.item = []) (h1 : a1.live n.item ≠ []) :
    (hasChildrenQuery a0 false n).1 = false ∧
    (hasChildrenQuery a0 false n).2.hasChildrenQueryed = true ∧
    (hasChildrenQuery a0 false n).2.hasChildren = false ∧
    (isInitialized a1 (hasChildrenQuery a0 false n).2).1 = true ∧
    (∀ mm : Node, mm.childInitialized = false →
        (isInitialized a1 mm).1
          = (mm.hasChildrenQueryed && (mm.hasChildren != decide (0 < a1.getItemsCount mm.item)))) ∧
    (syncNodeList a1 (f + 2) (isInitialized a1 (hasChildrenQuery a0 false n).2).2.item
          (isInitialized a1 (hasChildrenQuery a0 false n).2).2).map
        (fun p => (p.1.children.map Node.item, p.2))
      = .ok ((a1.live n.item).map some, [Evt.ins 0 ((a1.live n.item).length - 1)]) := by
  have hprobe : hasChildrenQuery a0 false n = (false, n.markQueryed false) := by
    simp [hasChildrenQuery, hci, Adapter.hasItems, h0]
  have hlive : 0 < (a1.live n.item).length := List.length_pos.2 h1
  have hforced : isInitialized a1 (n.markQueryed false) = (true, (n.markQueryed false).forceInit) := by
    simp [isInitialized, hci, Adapter.getItemsCount, hlive]
  refine ⟨by rw [hprobe], by rw [hprobe]; simp, by rw [hprobe]; simp, ?_, ?_, ?_⟩
  · rw [hprobe]
    simp [hforced]
  · intro mm hmm
    cases hq2 : mm.hasChildrenQueryed <;>
      cases hx : (mm.hasChildren != decide (0 < a1.getItemsCount mm.item)) <;>
        simp [isInitialized, hmm, hq2, hx]
  · rw [hprobe]
    simp only [hforced]
    have hc2 : ((n.markQueryed false).forceInit).children = [] := by simp [hc]
    have hi2 : ((n.markQueryed false).forceInit).item = n.item := by simp
    rw [hi2]
    exact syncNodeList_from_empty a1 f n.item _ hc2 h1

/-- Witness for c6_presence_correction: probeNode (item 3, unloaded,
unprobed) probed against the empty source, then reconciled against the
source in which item 3 gained children [8, 9]. -/
theorem c6_presence_correction_witness :
    (hasChildrenQuery aEmpty false probeNode).1 = false ∧
    (hasChildrenQuery aEmpty false probeNode).2.hasChildrenQueryed = true ∧
    (hasChildrenQuery aEmpty false probeNode).2.hasChildren = false ∧
    (isInitialized aGained (hasChildrenQuery aEmpty false probeNode).2).1 = true ∧
    (∀ mm : Node, mm.childInitialized = false →
        (isInitialized aGained mm).1
          = (mm.hasChildrenQueryed
              && (mm.hasChildren != decide (0 < aGained.getItemsCount mm.item)))) ∧
    (syncNodeList aGained 2 (isInitialized aGained (hasChildrenQuery aEmpty false probeNode).2).2.item
          (isInitialized aGained (hasChildrenQuery aEmpty false probeNode).2).2).map
        (fun p => (p.1.children.map Node.item, p.2))
      = .ok ((aGained.live probeNode.item).map some,
             [Evt.ins 0 ((aGained.live probeNode.item).length - 1)]) :=
  c6_presence_correction aEmpty aGained probeNode 0 rfl rfl rfl rfl (by decide)

/-- C3: the position invariant children[i].parentIndex = i holds after
each structural operation completes: after eraseChildren on a valid
contiguous range (given it held before), after the insertion block
(splicing fresh nodes at pos and renumbering from pos + count), and
tree-wide after a completed reconciliation pass. -/
theorem c3_position_invariant :
    (∀ (l : List Node) (b e : Nat), listIdxOk 0 l = true → posInvAll l = true → b < e →
        e ≤ l.length →
        listIdxOk 0 (eraseChildren l b e) = true ∧ posInvAll (eraseChildren l b e) = true) ∧
    (∀ (l : List Node) (pos : Nat) (items : List Nat), listIdxOk 0 l = true →
        posInvAll l = true → pos ≤ l.length →
        listIdxOk 0 (insertedChildren (insertFresh l pos items) (pos + items.length)) = true ∧
        posInvAll (insertedChildren (insertFresh l pos items) (pos + items.length)) = true) ∧
    (∀ (a : Adapter) (fuel : Nat) (parent : Option Nat) (node : Node) (r : Node × List Evt),
        posInvB node = true → syncNodeList a fuel parent node = .ok r →
        posInvB r.1 = true) :=
  ⟨fun l b e h1 h2 h3 h4 => eraseChildren_invariants l b e h1 h2 h3 h4,
   fun l pos items h1 h2 h3 => insert_invariants l pos items h1 h2 h3,
   fun a fuel parent node r hn h => syncNodeList_posInv a fuel parent node r hn h⟩

/-- Witness for c3_position_invariant: a concrete erase, a concrete
insertion, and a concrete completed reconciliation, each preserving the
position invariant. -/
theorem c3_position_invariant_witness :
    (listIdxOk 0 (eraseChildren rootAB.children 0 1) = true ∧
      posInvAll (eraseChildren rootAB.children 0 1) = true) ∧
    (listIdxOk 0 (insertedChildren (insertFresh rootAB.children 1 [5]) (1 + [5].length)) = true ∧
      posInvAll (insertedChildren (insertFresh rootAB.children 1 [5]) (1 + [5].length)) = true) ∧
    posInvB (Node.mk none 0 false false true []) = true :=
  ⟨c3_position_invariant.1 rootAB.children 0 1 (by decide) (by decide) (by decide) (by decide),
   c3_position_invariant.2.1 rootAB.children 1 [5] (by decide) (by decide) (by decide),
   c3_position_invariant.2.2 aEmpty 3 none rootUnloaded (Node.mk none 0 false false true [], [])
     (by decide) rfl⟩

/-- Witness for c5_batch_collapsing at N = 1 on a concrete engine. -/
theorem c5_batch_collapsing_witness :
    (runOps mEx (List.replicate 1 Op.beginU ++ List.replicate 1 Op.endU)).2
      = (doSyncTree { mEx with updating := (1 : Int) }).2 ++ [MEvt.refresh] ∧
    ((runOps mEx (List.replicate 1 Op.beginU ++ List.replicate 1 Op.endU)).2).count MEvt.syncRun
      = 1 ∧
    ((runOps mEx (List.replicate 1 Op.beginU ++ List.replicate 1 Op.endU)).2).count MEvt.refresh
      = 1 :=
  c5_batch_collapsing 1 (by decide) mEx rfl

end VTree
